import Mathlib

/-!
# Verification of the sf_monitor filter-composition and cost-allocation engine

Shallow embedding of the core logic of `src/app.py` (a Snowflake monitoring
dashboard): the parameterized filter-predicate builder (`base_filters` /
`params`), the raw-history view, the proportional credit allocation query
(`cost_sql`), and the live-queries view with its privileged/fallback paths.

Python strings stay `String`, integer/decimal SQL numerics become `Nat`/`Rat`,
SQL `NULL`-able columns become `Option`.  SQL `ORDER BY` and pandas
`sort_values` leave the relative order of tied keys unspecified; the model
determinizes them with a stable sort and only tie-insensitive consequences
(lengths, pairwise ordering in the sort key, null-vs-value placement under
Snowflake's `NULL`-highest ordering) are proved of it.
-/

namespace SfMonitor

/-! ## Decimal representation of `Nat`

`Nat.repr` is used by the builder to generate the placeholder keys `wh_0`,
`wh_1`, …  We prove that it is injective and produces only digit characters,
which is what makes the generated keys pairwise distinct and free of the
special characters `%`, `(`, `)`. -/

def digitVal (c : Char) : Nat := c.toNat - '0'.toNat

def decDigits (l : List Char) : Nat := l.foldl (fun a c => a * 10 + digitVal c) 0

theorem toDigitsCore_acc (f : Nat) : ∀ (n : Nat) (acc : List Char),
    Nat.toDigitsCore 10 f n acc = Nat.toDigitsCore 10 f n [] ++ acc := by
  induction f with
  | zero => intro n acc; simp [Nat.toDigitsCore]
  | succ f ih =>
    intro n acc
    simp only [Nat.toDigitsCore]
    by_cases h : n / 10 = 0
    · simp [h]
    · simp only [h, if_neg, ite_false]
      rw [ih (n / 10) (Nat.digitChar (n % 10) :: acc),
        ih (n / 10) (Nat.digitChar (n % 10) :: [])]
      simp

theorem decDigits_append_singleton (l : List Char) (c : Char) :
    decDigits (l ++ [c]) = decDigits l * 10 + digitVal c := by
  simp [decDigits, List.foldl_append]

theorem digitVal_digitChar (m : Nat) (h : m < 10) :
    digitVal (Nat.digitChar m) = m := by
  interval_cases m <;> decide

theorem decDigits_toDigitsCore (f : Nat) : ∀ n : Nat, n < f →
    decDigits (Nat.toDigitsCore 10 f n []) = n := by
  induction f with
  | zero => intro n h; exact absurd h (Nat.not_lt_zero n)
  | succ f ih =>
    intro n h
    simp only [Nat.toDigitsCore]
    by_cases h0 : n / 10 = 0
    · have hn10 : n < 10 := by omega
      simp [h0, decDigits, Nat.mod_eq_of_lt hn10, digitVal_digitChar n hn10]
    · have hdiv : n / 10 < n := Nat.div_lt_self (by omega) (by omega)
      rw [if_neg h0, toDigitsCore_acc, decDigits_append_singleton,
        ih (n / 10) (by omega), digitVal_digitChar (n % 10) (Nat.mod_lt n (by omega))]
      omega

theorem natRepr_injective : Function.Injective Nat.repr := by
  intro m n h
  have hd : Nat.toDigitsCore 10 (m + 1) m [] = Nat.toDigitsCore 10 (n + 1) n [] := by
    have := congrArg String.data h
    simpa [Nat.repr, List.asString, Nat.toDigits] using this
  have hm := decDigits_toDigitsCore (m + 1) m (Nat.lt_succ_self m)
  have hn := decDigits_toDigitsCore (n + 1) n (Nat.lt_succ_self n)
  rw [← hm, ← hn, hd]

theorem digitChar_isDigit (m : Nat) (h : m < 10) :
    (Nat.digitChar m).isDigit = true := by
  interval_cases m <;> decide

theorem toDigitsCore_digits (f : Nat) : ∀ (n : Nat) (acc : List Char),
    (∀ c ∈ acc, c.isDigit = true) →
    ∀ c ∈ Nat.toDigitsCore 10 f n acc, c.isDigit = true := by
  induction f with
  | zero => intro n acc hacc; simpa [Nat.toDigitsCore] using hacc
  | succ f ih =>
    intro n acc hacc
    simp only [Nat.toDigitsCore]
    by_cases h : n / 10 = 0
    · simp only [h, ite_true]
      intro c hc
      rcases List.mem_cons.mp hc with rfl | hc
      · exact digitChar_isDigit (n % 10) (Nat.mod_lt n (by omega))
      · exact hacc c hc
    · simp only [h, ite_false]
      refine ih (n / 10) _ ?_
      intro c hc
      rcases List.mem_cons.mp hc with rfl | hc
      · exact digitChar_isDigit (n % 10) (Nat.mod_lt n (by omega))
      · exact hacc c hc

theorem repr_chars_digit (n : Nat) : ∀ c ∈ (Nat.repr n).data, c.isDigit = true := by
  have := toDigitsCore_digits (n + 1) n [] (by simp)
  simpa [Nat.repr, List.asString, Nat.toDigits] using this

/-! ## Filter builder

Embedding of `app.py` lines 195–225: the `base_filters` clause list and the
`params` binding map.  Python dict insertion order is modelled by an
association list; the guard `if warehouses and "ALL" not in warehouses`
becomes the proposition `warehouses ≠ [] ∧ "ALL" ∉ warehouses`, and Python
string truthiness (`if user_filter:`) becomes `≠ ""`. -/

def whKey (idx : Nat) : String := "wh_" ++ Nat.repr idx

def whPlaceholder (idx : Nat) : String := "%(" ++ whKey idx ++ ")s"

def whClause (warehouses : List String) : String :=
  "WAREHOUSE_NAME IN (" ++
    String.intercalate ", " ((List.range warehouses.length).map whPlaceholder) ++ ")"

def whParams (warehouses : List String) : List (String × String) :=
  warehouses.enum.map (fun p => (whKey p.1, p.2))

def buildFilters (start_ts end_ts : String) (warehouses : List String)
    (user_filter query_tag : String) : List String × List (String × String) :=
  let fs := ["START_TIME >= %(start_ts)s", "START_TIME <= %(end_ts)s"]
  let ps := [("start_ts", start_ts), ("end_ts", end_ts)]
  let fs := if warehouses ≠ [] ∧ "ALL" ∉ warehouses then fs ++ [whClause warehouses] else fs
  let ps := if warehouses ≠ [] ∧ "ALL" ∉ warehouses then ps ++ whParams warehouses else ps
  let fs := if user_filter ≠ "" then fs ++ ["USER_NAME = %(user_name)s"] else fs
  let ps := if user_filter ≠ "" then ps ++ [("user_name", user_filter)] else ps
  let fs := if query_tag ≠ "" then fs ++ ["QUERY_TAG = %(query_tag)s"] else fs
  let ps := if query_tag ≠ "" then ps ++ [("query_tag", query_tag)] else ps
  (fs, ps)

def base_where (start_ts end_ts : String) (warehouses : List String)
    (user_filter query_tag : String) : String :=
  String.intercalate " AND " (buildFilters start_ts end_ts warehouses user_filter query_tag).1

/-- Clause-list contribution of the warehouse selection (lines 201–207). -/
def whClausePart (warehouses : List String) : List String :=
  if warehouses ≠ [] ∧ "ALL" ∉ warehouses then [whClause warehouses] else []

/-- Binding contribution of the warehouse selection (lines 201–207). -/
def whParamsPart (warehouses : List String) : List (String × String) :=
  if warehouses ≠ [] ∧ "ALL" ∉ warehouses then whParams warehouses else []

/-- Clause-list contribution of the user/tag text inputs (lines 209–214). -/
def userTagClauses (user_filter query_tag : String) : List String :=
  (if user_filter ≠ "" then ["USER_NAME = %(user_name)s"] else []) ++
    (if query_tag ≠ "" then ["QUERY_TAG = %(query_tag)s"] else [])

/-- Binding contribution of the user/tag text inputs (lines 209–214). -/
def userTagParams (user_filter query_tag : String) : List (String × String) :=
  (if user_filter ≠ "" then [("user_name", user_filter)] else []) ++
    (if query_tag ≠ "" then [("query_tag", query_tag)] else [])

theorem buildFilters_eq (s e : String) (w : List String) (u t : String) :
    buildFilters s e w u t =
      (["START_TIME >= %(start_ts)s", "START_TIME <= %(end_ts)s"] ++
          whClausePart w ++ userTagClauses u t,
        [("start_ts", s), ("end_ts", e)] ++ whParamsPart w ++ userTagParams u t) := by
  simp only [buildFilters, whClausePart, whParamsPart, userTagClauses, userTagParams]
  split_ifs <;> simp

/-! ## Placeholder scanner

A reference scanner for pyformat named placeholders `%(name)s`: it walks the
SQL text and returns, in order, the names of all placeholders it references.
Everything outside a `%(`…`)s` group is treated as literal SQL text. -/

mutual

def scanOutside : List Char → List String
  | [] => []
  | c :: rest =>
    if c = '%' then
      match rest with
      | '(' :: rest2 => scanInside rest2 []
      | other => scanOutside other
    else scanOutside rest
termination_by l => l.length
decreasing_by all_goals simp <;> omega

def scanInside : List Char → List Char → List String
  | [], _ => []
  | c :: rest, acc =>
    if c = ')' then
      match rest with
      | 's' :: rest2 => String.mk acc :: scanOutside rest2
      | other => scanOutside other
    else scanInside rest (acc ++ [c])
termination_by l _ => l.length
decreasing_by all_goals simp <;> omega

end

/-- Names of all placeholders referenced by a SQL text, in order. -/
def extractPlaceholders (sql : String) : List String := scanOutside sql.data

theorem scanOutside_nil : scanOutside [] = [] := by
  simp [scanOutside]

theorem scanOutside_pct (rest : List Char) :
    scanOutside ('%' :: '(' :: rest) = scanInside rest [] := by
  simp [scanOutside]

theorem scanOutside_cons_ne (c : Char) (rest : List Char) (h : c ≠ '%') :
    scanOutside (c :: rest) = scanOutside rest := by
  conv_lhs => rw [scanOutside.eq_def]
  dsimp only
  rw [if_neg h]

theorem scanInside_cons_ne (c : Char) (rest acc : List Char) (h : c ≠ ')') :
    scanInside (c :: rest) acc = scanInside rest (acc ++ [c]) := by
  conv_lhs => rw [scanInside.eq_def]
  dsimp only
  rw [if_neg h]

theorem scanInside_close (rest acc : List Char) :
    scanInside (')' :: 's' :: rest) acc = String.mk acc :: scanOutside rest := by
  rw [scanInside]
  simp

theorem scanOutside_append_no_pct :
    ∀ (a b : List Char), (∀ c ∈ a, c ≠ '%') → scanOutside (a ++ b) = scanOutside b := by
  intro a
  induction a with
  | nil => intro b _; simp
  | cons c a ih =>
    intro b h
    rw [List.cons_append, scanOutside_cons_ne c _ (h c (List.mem_cons_self c a))]
    exact ih b (fun x hx => h x (List.mem_cons_of_mem c hx))

theorem scanInside_collect :
    ∀ (k : List Char) (acc rest : List Char), (∀ c ∈ k, c ≠ ')') →
    scanInside (k ++ ')' :: 's' :: rest) acc = String.mk (acc ++ k) :: scanOutside rest := by
  intro k
  induction k with
  | nil => intro acc rest _; simp [scanInside_close]
  | cons c k ih =>
    intro acc rest h
    rw [List.cons_append, scanInside_cons_ne c _ acc (h c (List.mem_cons_self c k)),
      ih (acc ++ [c]) rest (fun x hx => h x (List.mem_cons_of_mem c hx))]
    simp

/-- Character-level shape of a pyformat placeholder group. -/
def phData (k : List Char) : List Char := '%' :: '(' :: (k ++ [')', 's'])

/-- A pyformat placeholder for the key `k`, as the source writes it. -/
def phString (k : String) : String := "%(" ++ k ++ ")s"

theorem phString_data (k : String) : (phString k).data = phData k.data := by
  simp [phString, phData]

theorem scanOutside_ph (k b : List Char) (h : ∀ c ∈ k, c ≠ ')') :
    scanOutside (phData k ++ b) = String.mk k :: scanOutside b := by
  have hshape : phData k ++ b = '%' :: '(' :: (k ++ (')' :: 's' :: b)) := by
    simp [phData]
  rw [hshape, scanOutside_pct, scanInside_collect k [] b h]
  simp

theorem intercalate_go_append (s : String) :
    ∀ (xs : List String) (p q : String),
    String.intercalate.go (p ++ q) s xs = p ++ String.intercalate.go q s xs := by
  intro xs
  induction xs with
  | nil => intro p q; simp [String.intercalate.go]
  | cons a xs ih =>
    intro p q
    rw [String.intercalate.go, String.intercalate.go]
    have hassoc : (p ++ q) ++ s ++ a = p ++ (q ++ s ++ a) := by
      simp [String.append_assoc]
    rw [hassoc, ih]

theorem intercalate_cons_cons (s a x : String) (xs : List String) :
    String.intercalate s (a :: x :: xs) = a ++ s ++ String.intercalate s (x :: xs) := by
  show String.intercalate.go a s (x :: xs) = a ++ s ++ String.intercalate.go x s xs
  rw [String.intercalate.go]
  have h1 : a ++ s ++ x = (a ++ s) ++ (x ++ "") := by simp
  have h2 : a ++ s ++ String.intercalate.go x s xs =
      (a ++ s) ++ String.intercalate.go (x ++ "") s xs := by simp
  rw [h1, h2, intercalate_go_append]

theorem intercalate_singleton (s a : String) : String.intercalate s [a] = a := rfl

theorem mk_data (s : String) : String.mk s.data = s := rfl

/-! ## Properties of the generated placeholder keys -/

theorem whKey_data (i : Nat) : (whKey i).data = 'w' :: 'h' :: '_' :: (Nat.repr i).data := by
  have h : ("wh_" : String).data = ['w', 'h', '_'] := rfl
  simp [whKey, h]

theorem isDigit_ne_special (c : Char) (h : c.isDigit = true) : c ≠ ')' ∧ c ≠ '%' := by
  constructor <;> intro he <;> subst he <;> exact absurd h (by decide)

theorem whKey_chars (i : Nat) : ∀ c ∈ (whKey i).data, c ≠ ')' ∧ c ≠ '%' := by
  rw [whKey_data]
  intro c hc
  rcases List.mem_cons.mp hc with rfl | hc
  · exact ⟨by decide, by decide⟩
  rcases List.mem_cons.mp hc with rfl | hc
  · exact ⟨by decide, by decide⟩
  rcases List.mem_cons.mp hc with rfl | hc
  · exact ⟨by decide, by decide⟩
  exact isDigit_ne_special c (repr_chars_digit i c hc)

theorem whKey_injective : Function.Injective whKey := by
  intro i j h
  have hd := congrArg String.data h
  rw [whKey_data, whKey_data] at hd
  simp only [List.cons.injEq, true_and] at hd
  exact natRepr_injective (String.ext hd)

theorem whKey_ne_of_head (i : Nat) (s : String) (h : s.data.head? ≠ some 'w') :
    whKey i ≠ s := by
  intro he
  apply h
  rw [← he, whKey_data]
  rfl

/-! ## Clause scanning -/

/-- A SQL clause `c` references exactly the placeholder names `ks`, in order,
regardless of what follows it in the text. -/
def ScansTo (c : String) (ks : List String) : Prop :=
  ∀ b : List Char, scanOutside (c.data ++ b) = ks ++ scanOutside b

theorem scansTo_simple (pre key : String) (hpre : ∀ c ∈ pre.data, c ≠ '%')
    (hkey : ∀ c ∈ key.data, c ≠ ')') : ScansTo (pre ++ phString key) [key] := by
  intro b
  rw [String.data_append, phString_data, List.append_assoc,
    scanOutside_append_no_pct pre.data _ hpre, scanOutside_ph key.data b hkey]
  simp [mk_data]

theorem scansTo_ph_list : ∀ (keys : List String),
    (∀ k ∈ keys, ∀ c ∈ k.data, c ≠ ')' ∧ c ≠ '%') →
    ∀ b, scanOutside ((String.intercalate ", " (keys.map phString)).data ++ b) =
      keys ++ scanOutside b := by
  intro keys
  induction keys with
  | nil => intro _ b; simp [String.intercalate]
  | cons k keys ih =>
    intro h b
    have hk : ∀ c ∈ k.data, c ≠ ')' :=
      fun c hc => ((h k (List.mem_cons_self k keys)) c hc).1
    cases keys with
    | nil =>
      rw [List.map_cons, List.map_nil, intercalate_singleton, phString_data,
        scanOutside_ph k.data b hk]
      simp [mk_data]
    | cons k2 keys2 =>
      rw [List.map_cons, List.map_cons, intercalate_cons_cons, String.data_append,
        String.data_append, List.append_assoc, List.append_assoc, phString_data,
        scanOutside_ph k.data _ hk,
        scanOutside_append_no_pct (", " : String).data _ (by decide), ← List.map_cons,
        ih (fun x hx c hc => h x (List.mem_cons_of_mem k hx) c hc) b]
      simp

theorem scansTo_whClause (w : List String) :
    ScansTo (whClause w) ((List.range w.length).map whKey) := by
  intro b
  have hmap : (List.range w.length).map whPlaceholder =
      ((List.range w.length).map whKey).map phString := by
    rw [List.map_map]
    rfl
  have hgood : ∀ k ∈ (List.range w.length).map whKey, ∀ c ∈ k.data, c ≠ ')' ∧ c ≠ '%' := by
    intro k hk
    obtain ⟨i, _, rfl⟩ := List.mem_map.mp hk
    exact whKey_chars i
  rw [whClause, hmap, String.data_append, String.data_append, List.append_assoc,
    List.append_assoc, scanOutside_append_no_pct ("WAREHOUSE_NAME IN (" : String).data _
      (by decide), scansTo_ph_list _ hgood,
    scanOutside_append_no_pct (")" : String).data _ (by decide)]

theorem scansTo_and_chain : ∀ (cs : List String) (kss : List (List String)),
    List.Forall₂ ScansTo cs kss → ∀ b,
    scanOutside ((String.intercalate " AND " cs).data ++ b) = kss.flatten ++ scanOutside b := by
  intro cs
  induction cs with
  | nil =>
    intro kss h b
    cases h
    simp [String.intercalate]
  | cons c cs ih =>
    intro kss h b
    cases h with
    | cons hc hrest =>
      cases cs with
      | nil =>
        cases hrest
        rw [intercalate_singleton, hc b]
        simp
      | cons c2 cs2 =>
        rw [intercalate_cons_cons, String.data_append, String.data_append,
          List.append_assoc, List.append_assoc, hc _,
          scanOutside_append_no_pct (" AND " : String).data _ (by decide),
          ih _ hrest b]
        simp

theorem scansTo_clause1 : ScansTo "START_TIME >= %(start_ts)s" ["start_ts"] := by
  have h : ("START_TIME >= %(start_ts)s" : String) = "START_TIME >= " ++ phString "start_ts" := by
    decide
  rw [h]
  exact scansTo_simple _ _ (by decide) (by decide)

theorem scansTo_clause2 : ScansTo "START_TIME <= %(end_ts)s" ["end_ts"] := by
  have h : ("START_TIME <= %(end_ts)s" : String) = "START_TIME <= " ++ phString "end_ts" := by
    decide
  rw [h]
  exact scansTo_simple _ _ (by decide) (by decide)

theorem scansTo_userClause : ScansTo "USER_NAME = %(user_name)s" ["user_name"] := by
  have h : ("USER_NAME = %(user_name)s" : String) = "USER_NAME = " ++ phString "user_name" := by
    decide
  rw [h]
  exact scansTo_simple _ _ (by decide) (by decide)

theorem scansTo_tagClause : ScansTo "QUERY_TAG = %(query_tag)s" ["query_tag"] := by
  have h : ("QUERY_TAG = %(query_tag)s" : String) = "QUERY_TAG = " ++ phString "query_tag" := by
    decide
  rw [h]
  exact scansTo_simple _ _ (by decide) (by decide)

theorem whParams_keys (w : List String) :
    (whParams w).map Prod.fst = (List.range w.length).map whKey := by
  rw [whParams, List.map_map]
  have h : (Prod.fst ∘ fun p : Nat × String => (whKey p.1, p.2)) = whKey ∘ Prod.fst := rfl
  rw [h, ← List.map_map, List.enum_map_fst]

theorem whParams_values (w : List String) : (whParams w).map Prod.snd = w := by
  rw [whParams, List.map_map]
  have h : (Prod.snd ∘ fun p : Nat × String => (whKey p.1, p.2)) = Prod.snd := rfl
  rw [h, List.enum_map_snd]

theorem extract_base_where (s e : String) (w : List String) (u t : String) :
    extractPlaceholders (base_where s e w u t) = (buildFilters s e w u t).2.map Prod.fst := by
  rw [base_where, buildFilters_eq, extractPlaceholders]
  dsimp only
  have h12 : List.Forall₂ ScansTo
      ["START_TIME >= %(start_ts)s", "START_TIME <= %(end_ts)s"]
      [["start_ts"], ["end_ts"]] :=
    .cons scansTo_clause1 (.cons scansTo_clause2 .nil)
  have hwh : List.Forall₂ ScansTo (whClausePart w)
      (if w ≠ [] ∧ "ALL" ∉ w then [(List.range w.length).map whKey] else []) := by
    rw [whClausePart]
    split_ifs
    · exact .cons (scansTo_whClause w) .nil
    · exact .nil
  have hut : List.Forall₂ ScansTo (userTagClauses u t)
      ((if u ≠ "" then [["user_name"]] else []) ++
        (if t ≠ "" then [["query_tag"]] else [])) := by
    rw [userTagClauses]
    apply List.rel_append
    · split_ifs
      · exact .cons scansTo_userClause .nil
      · exact .nil
    · split_ifs
      · exact .cons scansTo_tagClause .nil
      · exact .nil
  have hchain := scansTo_and_chain _ _ (List.rel_append (List.rel_append h12 hwh) hut) []
  rw [List.append_nil, scanOutside_nil, List.append_nil] at hchain
  rw [hchain]
  simp only [whParamsPart, userTagParams, List.flatten_append, List.map_append]
  split_ifs <;> simp [whParams_keys]

theorem nodup_whKeys (n : Nat) : ((List.range n).map whKey).Nodup :=
  List.Nodup.map whKey_injective (List.nodup_range n)

theorem notin_whKeys (n : Nat) (s : String) (h : s.data.head? ≠ some 'w') :
    s ∉ (List.range n).map whKey := by
  intro hs
  obtain ⟨i, _, he⟩ := List.mem_map.mp hs
  exact whKey_ne_of_head i s h he

theorem keys_nodup_core (n : Nat) (ut : List String) (hut : ut.Nodup)
    (hu : ∀ x ∈ ut, x.data.head? ≠ some 'w' ∧ x ≠ "start_ts" ∧ x ≠ "end_ts") :
    (["start_ts", "end_ts"] ++ (List.range n).map whKey ++ ut).Nodup := by
  simp only [List.nodup_append]
  refine ⟨⟨by decide, nodup_whKeys n, ?_⟩, hut, ?_⟩
  · intro x hx hx'
    have hx2 : x = "start_ts" ∨ x = "end_ts" := by
      rcases List.mem_cons.mp hx with h | h
      · exact Or.inl h
      · exact Or.inr (by simpa using h)
    rcases hx2 with rfl | rfl
    · exact notin_whKeys n _ (by decide) hx'
    · exact notin_whKeys n _ (by decide) hx'
  · intro x hx hxut
    obtain ⟨h3a, h3b, h3c⟩ := hu x hxut
    rcases List.mem_append.mp hx with hx | hx
    · rcases List.mem_cons.mp hx with h | h
      · exact h3b h
      · exact h3c (by simpa using h)
    · obtain ⟨i, _, he⟩ := List.mem_map.mp hx
      exact whKey_ne_of_head i x h3a he

theorem buildFilters_keys_nodup (s e : String) (w : List String) (u t : String) :
    ((buildFilters s e w u t).2.map Prod.fst).Nodup := by
  rw [buildFilters_eq]
  dsimp only
  simp only [whParamsPart, userTagParams, List.map_append]
  split_ifs with h1 h2 h3 <;>
    simp only [whParams_keys, List.map_cons, List.map_nil, List.append_nil] <;>
    first
      | (simpa using keys_nodup_core w.length ["user_name", "query_tag"] (by decide) (by decide))
      | (simpa using keys_nodup_core w.length ["user_name"] (by decide) (by decide))
      | (simpa using keys_nodup_core w.length ["query_tag"] (by decide) (by decide))
      | (simpa using keys_nodup_core w.length [] (by decide) (by decide))

theorem base_where_shape (s1 e1 : String) (w1 : List String) (u1 t1 s2 e2 : String)
    (w2 : List String) (u2 t2 : String) (hl : w1.length = w2.length)
    (hg : (w1 ≠ [] ∧ "ALL" ∉ w1) ↔ (w2 ≠ [] ∧ "ALL" ∉ w2))
    (hu : u1 = "" ↔ u2 = "") (ht : t1 = "" ↔ t2 = "") :
    base_where s1 e1 w1 u1 t1 = base_where s2 e2 w2 u2 t2 := by
  rw [base_where, base_where, buildFilters_eq, buildFilters_eq]
  dsimp only
  have hwc : whClause w1 = whClause w2 := by rw [whClause, whClause, hl]
  have h1 : whClausePart w1 = whClausePart w2 := by
    rw [whClausePart, whClausePart]
    by_cases hc : w1 ≠ [] ∧ "ALL" ∉ w1
    · rw [if_pos hc, if_pos (hg.mp hc), hwc]
    · rw [if_neg hc, if_neg (fun h => hc (hg.mpr h))]
  have h2 : userTagClauses u1 t1 = userTagClauses u2 t2 := by
    rw [userTagClauses, userTagClauses]
    have hif1 : (if u1 ≠ "" then ["USER_NAME = %(user_name)s"] else []) =
        (if u2 ≠ "" then ["USER_NAME = %(user_name)s"] else []) := by
      by_cases hc : u1 = ""
      · simp [hc, hu.mp hc]
      · have hc2 : ¬u2 = "" := fun h => hc (hu.mpr h)
        simp [hc, hc2]
    have hif2 : (if t1 ≠ "" then ["QUERY_TAG = %(query_tag)s"] else []) =
        (if t2 ≠ "" then ["QUERY_TAG = %(query_tag)s"] else []) := by
      by_cases hc : t1 = ""
      · simp [hc, ht.mp hc]
      · have hc2 : ¬t2 = "" := fun h => hc (ht.mpr h)
        simp [hc, hc2]
    rw [hif1, hif2]
  rw [h1, h2]

theorem whClause_ne_user (w : List String) :
    whClause w ≠ "USER_NAME = %(user_name)s" := by
  intro h
  have hd := congrArg String.data h
  rw [whClause, String.data_append, String.data_append] at hd
  have h0 : ("WAREHOUSE_NAME IN (" : String).data =
      'W' :: ("AREHOUSE_NAME IN (" : String).data := rfl
  have h1 : ("USER_NAME = %(user_name)s" : String).data =
      'U' :: ("SER_NAME = %(user_name)s" : String).data := rfl
  rw [h0, h1, List.cons_append, List.cons_append] at hd
  injection hd with hc _
  exact absurd hc (by decide)

theorem whClause_ne_tag (w : List String) :
    whClause w ≠ "QUERY_TAG = %(query_tag)s" := by
  intro h
  have hd := congrArg String.data h
  rw [whClause, String.data_append, String.data_append] at hd
  have h0 : ("WAREHOUSE_NAME IN (" : String).data =
      'W' :: ("AREHOUSE_NAME IN (" : String).data := rfl
  have h1 : ("QUERY_TAG = %(query_tag)s" : String).data =
      'Q' :: ("UERY_TAG = %(query_tag)s" : String).data := rfl
  rw [h0, h1, List.cons_append, List.cons_append] at hd
  injection hd with hc _
  exact absurd hc (by decide)

theorem mem_buildFilters_clauses (s e : String) (w : List String) (u t c : String) :
    c ∈ (buildFilters s e w u t).1 ↔
      c = "START_TIME >= %(start_ts)s" ∨ c = "START_TIME <= %(end_ts)s" ∨
      ((w ≠ [] ∧ "ALL" ∉ w) ∧ c = whClause w) ∨
      (u ≠ "" ∧ c = "USER_NAME = %(user_name)s") ∨
      (t ≠ "" ∧ c = "QUERY_TAG = %(query_tag)s") := by
  rw [buildFilters_eq]
  dsimp only
  rw [whClausePart, userTagClauses]
  split_ifs with h1 h2 h3 <;> simp_all <;> tauto

/-! ## Claim C1 -/

/-- C1: for every operator selection, the generated predicate text references
exactly the binding keys (each placeholder has exactly one binding, and every
binding is referenced), and the predicate text is a function of the shape of
the selection only (warehouse count, sentinel/emptiness, and emptiness of the
user/tag texts) — so no filter value is ever interpolated into the SQL text. -/
theorem c1_injection_safe_predicate (s e : String) (w : List String) (u t : String) :
    (extractPlaceholders (base_where s e w u t) = (buildFilters s e w u t).2.map Prod.fst ∧
      ((buildFilters s e w u t).2.map Prod.fst).Nodup) ∧
    (∀ (s2 e2 : String) (w2 : List String) (u2 t2 : String),
      w.length = w2.length → ((w ≠ [] ∧ "ALL" ∉ w) ↔ (w2 ≠ [] ∧ "ALL" ∉ w2)) →
      (u = "" ↔ u2 = "") → (t = "" ↔ t2 = "") →
      base_where s e w u t = base_where s2 e2 w2 u2 t2) :=
  ⟨⟨extract_base_where s e w u t, buildFilters_keys_nodup s e w u t⟩,
    fun s2 e2 w2 u2 t2 hl hg hu ht =>
      base_where_shape s e w u t s2 e2 w2 u2 t2 hl hg hu ht⟩

/-- Witness for C1: two shape-equal selections with entirely different filter
values generate the identical SQL text. -/
theorem c1_injection_safe_predicate_witness :
    base_where "2025-01-01 00:00:00" "2025-01-08 23:59:59.999999"
        ["WH_A", "WH_B"] "alice" "etl_tag" =
      base_where "1970-01-01 00:00:00" "2099-12-31 23:59:59.999999"
        ["PROD", "DEV"] "bob" "x" :=
  (c1_injection_safe_predicate "2025-01-01 00:00:00" "2025-01-08 23:59:59.999999"
      ["WH_A", "WH_B"] "alice" "etl_tag").2
    "1970-01-01 00:00:00" "2099-12-31 23:59:59.999999" ["PROD", "DEV"] "bob" "x"
    (by decide) (by decide) (by decide) (by decide)

/-! ## Claim C2 -/

/-- C2: if the universal sentinel `ALL` is among the selected warehouses the
builder emits no warehouse restriction at all (the output is the same as for
an empty selection); otherwise the warehouse clause is one `IN`-list whose
`i`-th placeholder `wh_i` is bound to the `i`-th selected warehouse — one
bound parameter per named warehouse. -/
theorem c2_warehouse_sentinel (s e : String) (w : List String) (u t : String) :
    ("ALL" ∈ w → buildFilters s e w u t = buildFilters s e [] u t) ∧
    ("ALL" ∉ w → w ≠ [] →
      (buildFilters s e w u t).1 =
        ["START_TIME >= %(start_ts)s", "START_TIME <= %(end_ts)s"] ++
          [whClause w] ++ userTagClauses u t ∧
      (buildFilters s e w u t).2 =
        [("start_ts", s), ("end_ts", e)] ++ whParams w ++ userTagParams u t ∧
      extractPlaceholders (whClause w) = (List.range w.length).map whKey ∧
      (whParams w).map Prod.fst = (List.range w.length).map whKey ∧
      (whParams w).map Prod.snd = w ∧
      ((whParams w).map Prod.fst).Nodup) := by
  constructor
  · intro hALL
    rw [buildFilters_eq, buildFilters_eq]
    have hng : ¬(w ≠ [] ∧ "ALL" ∉ w) := fun h => h.2 hALL
    have hng2 : ¬(([] : List String) ≠ [] ∧ "ALL" ∉ ([] : List String)) := fun h => h.1 rfl
    rw [whClausePart, whClausePart, whParamsPart, whParamsPart,
      if_neg hng, if_neg hng2, if_neg hng, if_neg hng2]
  · intro hALL hne
    have hg : w ≠ [] ∧ "ALL" ∉ w := ⟨hne, hALL⟩
    refine ⟨?_, ?_, ?_, whParams_keys w, whParams_values w, ?_⟩
    · rw [buildFilters_eq]
      dsimp only
      rw [whClausePart, if_pos hg]
    · rw [buildFilters_eq]
      dsimp only
      rw [whParamsPart, if_pos hg]
    · have h := scansTo_whClause w []
      rw [List.append_nil, scanOutside_nil, List.append_nil] at h
      exact h
    · rw [whParams_keys]
      exact nodup_whKeys w.length

/-- Witness for C2: a selection containing `ALL` next to a named warehouse
builds the unrestricted predicate, and a two-warehouse selection produces the
two placeholders `wh_0`, `wh_1` bound to the two names in order. -/
theorem c2_warehouse_sentinel_witness :
    buildFilters "a" "b" ["X", "ALL"] "" "" = buildFilters "a" "b" [] "" "" ∧
    extractPlaceholders (whClause ["X", "Y"]) = ["wh_0", "wh_1"] ∧
    (whParams ["X", "Y"]).map Prod.snd = ["X", "Y"] :=
  ⟨(c2_warehouse_sentinel "a" "b" ["X", "ALL"] "" "").1 (by decide),
    (((c2_warehouse_sentinel "a" "b" ["X", "Y"] "" "").2 (by decide)
      (by decide)).2.2.1).trans (by decide),
    ((c2_warehouse_sentinel "a" "b" ["X", "Y"] "" "").2 (by decide)
      (by decide)).2.2.2.2.1⟩

/-! ## Claim C3 -/

/-- C3 counterexample: a whitespace-only user text is truthy in Python, so the
builder emits a literal `USER_NAME` clause binding the one-space string —
refuting the claim that blank (whitespace-only) text yields no clause. -/
theorem c3_counterexample :
    "USER_NAME = %(user_name)s" ∈ (buildFilters "a" "b" [] " " "").1 ∧
    ("user_name", " ") ∈ (buildFilters "a" "b" [] " " "").2 := by
  decide

/-- C3 (amended): only the *empty* user or tag text is treated as "no filter
on that dimension"; any non-empty text — including whitespace-only text — is
filtered on literally, with the exact string travelling as the binding. -/
theorem c3_blank_text_amended (s e : String) (w : List String) (u t : String) :
    (u = "" → "USER_NAME = %(user_name)s" ∉ (buildFilters s e w u t).1) ∧
    (t = "" → "QUERY_TAG = %(query_tag)s" ∉ (buildFilters s e w u t).1) ∧
    (u ≠ "" → "USER_NAME = %(user_name)s" ∈ (buildFilters s e w u t).1 ∧
      ("user_name", u) ∈ (buildFilters s e w u t).2) ∧
    (t ≠ "" → "QUERY_TAG = %(query_tag)s" ∈ (buildFilters s e w u t).1 ∧
      ("query_tag", t) ∈ (buildFilters s e w u t).2) := by
  refine ⟨?_, ?_, ?_, ?_⟩
  · intro hu hm
    rcases (mem_buildFilters_clauses s e w u t _).mp hm with h | h | h | h | h
    · exact absurd h (by decide)
    · exact absurd h (by decide)
    · exact whClause_ne_user w h.2.symm
    · exact h.1 hu
    · exact absurd h.2 (by decide)
  · intro ht hm
    rcases (mem_buildFilters_clauses s e w u t _).mp hm with h | h | h | h | h
    · exact absurd h (by decide)
    · exact absurd h (by decide)
    · exact whClause_ne_tag w h.2.symm
    · exact absurd h.2 (by decide)
    · exact h.1 ht
  · intro hu
    constructor
    · exact (mem_buildFilters_clauses s e w u t _).mpr (Or.inr (Or.inr (Or.inr
        (Or.inl ⟨hu, rfl⟩))))
    · rw [buildFilters_eq]
      dsimp only
      rw [userTagParams]
      simp [hu]
  · intro ht
    constructor
    · exact (mem_buildFilters_clauses s e w u t _).mpr (Or.inr (Or.inr (Or.inr
        (Or.inr ⟨ht, rfl⟩))))
    · rw [buildFilters_eq]
      dsimp only
      rw [userTagParams]
      simp [ht]

/-- Witness for C3 (amended) at concrete inputs: empty text adds no clause,
one-space text adds the literal clause and binding. -/
theorem c3_blank_text_amended_witness :
    "USER_NAME = %(user_name)s" ∉ (buildFilters "a" "b" ["X"] "" "tag").1 ∧
    ("user_name", " ") ∈ (buildFilters "a" "b" ["X"] " " "tag").2 :=
  ⟨(c3_blank_text_amended "a" "b" ["X"] "" "tag").1 rfl,
    ((c3_blank_text_amended "a" "b" ["X"] " " "tag").2.2.1 (by decide)).2⟩

/-! ## Query-history rows and the Raw-history view

A row of `SNOWFLAKE.ACCOUNT_USAGE.QUERY_HISTORY` as selected by the app.
Timestamps are epoch seconds (`Nat`); `TOTAL_ELAPSED_TIME` is integer
milliseconds; `CREDITS_USED_CLOUD_SERVICES` is an exact decimal, modelled by
`Rat`; `WAREHOUSE_NAME` is nullable. -/

structure QueryRow where
  query_id : String
  user_name : String
  warehouse_name : Option String
  start_time : Nat
  total_elapsed_time : Nat
  bytes_scanned : Nat
  credits_used_cloud_services : Rat
  execution_status : String
  query_tag : String
  query_text : String
deriving DecidableEq

/-- A descending sort on the metric column.  The source's sorted outputs
(`ORDER BY … DESC`, `df.sort_values(ascending=False)`) do not specify the
relative order of tied keys; the model fixes one concrete tie order with a
stable merge sort, and only consequences that are insensitive to that choice
(output length, pairwise descending order in the metric) are proved of it. -/
def sortDescBy {α β : Type} [LinearOrder β] (metric : α → β) (df : List α) : List α :=
  df.mergeSort (fun a b => decide (metric b ≤ metric a))

/-- The raw-history view (app.py lines 308–329): full rows ordered by
`START_TIME DESC`, `LIMIT 500`. -/
def raw_history (df : List QueryRow) : List QueryRow :=
  (sortDescBy (fun r => r.start_time) df).take 500

theorem descComp_trans {α β : Type} [LinearOrder β] (metric : α → β) :
    ∀ a b c : α, decide (metric b ≤ metric a) = true →
      decide (metric c ≤ metric b) = true → decide (metric c ≤ metric a) = true := by
  intro a b c hab hbc
  simp only [decide_eq_true_eq] at *
  exact le_trans hbc hab

theorem descComp_total {α β : Type} [LinearOrder β] (metric : α → β) :
    ∀ a b : α, (decide (metric b ≤ metric a) || decide (metric a ≤ metric b)) = true := by
  intro a b
  simp only [Bool.or_eq_true, decide_eq_true_eq]
  exact le_total (metric b) (metric a)

theorem sortDescBy_pairwise {α β : Type} [LinearOrder β] (metric : α → β)
    (df : List α) :
    List.Pairwise (fun a b => metric b ≤ metric a) (sortDescBy metric df) := by
  have h := List.sorted_mergeSort (descComp_trans metric) (descComp_total metric) df
  exact h.imp (fun hab => by simpa using hab)

/-- A row constant used to build concrete test inputs. -/
def qr0 : QueryRow :=
  { query_id := "q", user_name := "u", warehouse_name := none, start_time := 0,
    total_elapsed_time := 0, bytes_scanned := 0, credits_used_cloud_services := 0,
    execution_status := "SUCCESS", query_tag := "", query_text := "" }

/-! ## Claim C10 -/

/-- C10: the raw-history view returns at most 500 rows for every underlying
row set, ordered by start time descending. -/
theorem c10_raw_history_cap (df : List QueryRow) :
    (raw_history df).length ≤ 500 ∧
    List.Pairwise (fun a b => b.start_time ≤ a.start_time) (raw_history df) :=
  ⟨List.length_take_le 500 _,
    List.Pairwise.sublist (List.take_sublist _ _)
      (sortDescBy_pairwise (fun r => r.start_time) df)⟩

/-! ## Cost allocation (`cost_sql`, app.py lines 378–424)

The embedding works over the rows in scope of the query: `qs` are the
`QUERY_HISTORY` rows satisfying `base_where`, `ms` the
`WAREHOUSE_METERING_HISTORY` rows satisfying the time/warehouse restriction.
Numerics are exact rationals, so the proportional split is exact.  SQL `NULL`
is `none`; Snowflake orders `NULL` above every non-`NULL` value, so
`ORDER BY … DESC` places `NULL` first. -/

structure MeteringRow where
  start_time : Nat
  warehouse_name : String
  credits_used : Rat
deriving DecidableEq

/-- `DATE_TRUNC('hour', t)` on epoch seconds, as an hour index. -/
def hourOf (t : Nat) : Nat := t / 3600

/-- CTE `q`: scoped history rows with `WAREHOUSE_NAME IS NOT NULL`. -/
def costQ (qs : List QueryRow) : List QueryRow :=
  qs.filter (fun q => q.warehouse_name.isSome)

/-- CTE `totals`: per-(hour, warehouse) sum of `TOTAL_ELAPSED_TIME` over `q`. -/
def totalMs (qs : List QueryRow) (h : Nat) (w : String) : Nat :=
  (((costQ qs).filter
      (fun q => decide (hourOf q.start_time = h) && decide (q.warehouse_name = some w))).map
    (fun q => q.total_elapsed_time)).sum

/-- CTE `wh`: per-(hour, warehouse) credit totals from the metering history;
`none` when the bucket has no metering row (the `LEFT JOIN` finds nothing). -/
def whCredits (ms : List MeteringRow) (h : Nat) (w : String) : Option Rat :=
  let rows := ms.filter
    (fun m => decide (hourOf m.start_time = h) && decide (m.warehouse_name = w))
  if rows.isEmpty then none else some ((rows.map (fun m => m.credits_used)).sum)

structure CostRow where
  query_id : String
  user_name : String
  warehouse_name : String
  start_time : Nat
  total_elapsed_time : Nat
  query_text : String
  credits_used : Option Rat
  estimated_credits : Option Rat
deriving DecidableEq

/-- One output row of `cost_sql`'s SELECT list.  `NULLIF(t.TOTAL_MS, 0)` makes
the division yield `NULL` when the bucket's elapsed total is zero, and a
missing metering bucket propagates `NULL` through the product. -/
def allocRow (qs : List QueryRow) (ms : List MeteringRow) (q : QueryRow)
    (w : String) : CostRow :=
  { query_id := q.query_id, user_name := q.user_name, warehouse_name := w,
    start_time := q.start_time, total_elapsed_time := q.total_elapsed_time,
    query_text := q.query_text,
    credits_used := whCredits ms (hourOf q.start_time) w,
    estimated_credits :=
      match whCredits ms (hourOf q.start_time) w with
      | none => none
      | some c =>
        if totalMs qs (hourOf q.start_time) w = 0 then none
        else some ((q.total_elapsed_time : Rat) /
          (totalMs qs (hourOf q.start_time) w : Rat) * c) }

/-- All rows of `cost_sql` before `ORDER BY`/`LIMIT`: one per scoped query. -/
def allocRows (qs : List QueryRow) (ms : List MeteringRow) : List CostRow :=
  (costQ qs).filterMap (fun q => q.warehouse_name.map (fun w => allocRow qs ms q w))

/-- Snowflake comparison for `ORDER BY ESTIMATED_CREDITS DESC`: `NULL` compares
higher than every value, hence sorts first in a descending sort. -/
def estDescNullsFirst (a b : Option Rat) : Bool :=
  match a, b with
  | none, _ => true
  | some _, none => false
  | some x, some y => decide (y ≤ x)

/-- `cost_sql`'s final `ORDER BY ESTIMATED_CREDITS DESC LIMIT 50`. -/
def cost_rows (qs : List QueryRow) (ms : List MeteringRow) : List CostRow :=
  ((allocRows qs ms).mergeSort
    (fun a b => estDescNullsFirst a.estimated_credits b.estimated_credits)).take 50

theorem allocRows_filter (qs : List QueryRow) (ms : List MeteringRow) (h : Nat)
    (w : String) :
    (allocRows qs ms).filter
        (fun r => decide (hourOf r.start_time = h) && decide (r.warehouse_name = w)) =
      ((costQ qs).filter
          (fun q => decide (hourOf q.start_time = h) && decide (q.warehouse_name = some w))).map
        (fun q => allocRow qs ms q w) := by
  rw [allocRows]
  generalize costQ qs = l
  induction l with
  | nil => simp
  | cons q l ih =>
    cases hwn : q.warehouse_name with
    | none =>
      simp only [List.filterMap_cons, hwn, Option.map_none', List.filter_cons]
      rw [ih]
      simp [hwn]
    | some w' =>
      simp only [List.filterMap_cons, hwn, Option.map_some', List.filter_cons]
      rw [ih]
      by_cases h1 : hourOf q.start_time = h
      · by_cases h2 : w' = w
        · subst h2
          simp [allocRow, h1, hwn]
        · simp [allocRow, h1, h2, hwn]
      · simp [allocRow, h1, hwn]

theorem alloc_bucket_sum (qs : List QueryRow) (ms : List MeteringRow) (h : Nat)
    (w : String) (c : Rat) (hc : whCredits ms h w = some c)
    (ht : totalMs qs h w ≠ 0) :
    (((allocRows qs ms).filter
        (fun r => decide (hourOf r.start_time = h) && decide (r.warehouse_name = w))).map
      (fun r => r.estimated_credits.getD 0)).sum = c := by
  rw [allocRows_filter qs ms h w, List.map_map]
  set l := (costQ qs).filter
    (fun q => decide (hourOf q.start_time = h) && decide (q.warehouse_name = some w)) with hl
  have hmem : ∀ q ∈ l, ((fun r : CostRow => r.estimated_credits.getD 0) ∘
      (fun q => allocRow qs ms q w)) q =
      (q.total_elapsed_time : Rat) * (c / (totalMs qs h w : Rat)) := by
    intro q hq
    have hfil := List.of_mem_filter hq
    rw [Bool.and_eq_true] at hfil
    have hq1 : hourOf q.start_time = h := of_decide_eq_true hfil.1
    simp [Function.comp, allocRow, hq1, hc, ht]
    ring
  rw [List.map_congr_left hmem, List.sum_map_mul_right]
  have hsum : (l.map (fun q => (q.total_elapsed_time : Rat))).sum =
      ((totalMs qs h w : Nat) : Rat) := by
    rw [totalMs, ← hl, Nat.cast_list_sum, List.map_map]
    rfl
  rw [hsum]
  have hT : ((totalMs qs h w : Nat) : Rat) ≠ 0 := Nat.cast_ne_zero.mpr ht
  field_simp

theorem mergeSort_pair {α : Type} (le : α → α → Bool) (a b : α) :
    [a, b].mergeSort le = if le a b then [a, b] else [b, a] := by
  rw [List.mergeSort]
  simp only [List.splitInTwo, List.splitAt_eq]
  norm_num
  by_cases hab : le a b <;> simp [List.merge, hab]

/-! ## Claims C5–C7 -/

/-- The spec's synthetic dataset: two queries in the same warehouse/hour
bucket with elapsed times 100 ms and 300 ms. -/
def exQ1 : QueryRow :=
  { qr0 with
    query_id := "q1"
    warehouse_name := some "W"
    start_time := 7200
    total_elapsed_time := 100 }

def exQ2 : QueryRow :=
  { qr0 with
    query_id := "q2"
    warehouse_name := some "W"
    start_time := 7300
    total_elapsed_time := 300 }

/-- The spec's synthetic metering bucket: credit total 4.0 for that hour. -/
def exMs : List MeteringRow :=
  [{ start_time := 7200, warehouse_name := "W", credits_used := 4 }]

/-- C5: in a (warehouse, hour) group with nonzero elapsed total, every query
is allocated `elapsed / group_total * bucket_credits`; on the spec's synthetic
dataset the allocations are exactly 1.0 and 3.0; and the allocations over a
bucket sum exactly to the bucket's credit total (exact in `Rat`). -/
theorem c5_proportional_allocation :
    (∀ (qs : List QueryRow) (ms : List MeteringRow) (q : QueryRow) (w : String) (c : Rat),
      totalMs qs (hourOf q.start_time) w ≠ 0 →
      whCredits ms (hourOf q.start_time) w = some c →
      (allocRow qs ms q w).estimated_credits =
        some ((q.total_elapsed_time : Rat) /
          (totalMs qs (hourOf q.start_time) w : Rat) * c)) ∧
    ((allocRows [exQ1, exQ2] exMs).map (fun r => r.estimated_credits) =
      [some 1, some 3]) ∧
    (∀ (qs : List QueryRow) (ms : List MeteringRow) (h : Nat) (w : String) (c : Rat),
      whCredits ms h w = some c → totalMs qs h w ≠ 0 →
      (((allocRows qs ms).filter
          (fun r => decide (hourOf r.start_time = h) && decide (r.warehouse_name = w))).map
        (fun r => r.estimated_credits.getD 0)).sum = c) := by
  refine ⟨?_, ?_, fun qs ms h w c hc ht => alloc_bucket_sum qs ms h w c hc ht⟩
  · intro qs ms q w c ht hc
    simp [allocRow, hc, ht]
  · norm_num [allocRows, allocRow, costQ, whCredits, totalMs, exQ1, exQ2, exMs,
      qr0, hourOf, List.filterMap_cons]

/-- Witness for C5: the synthetic query gets `100 / 400 * 4`, and the bucket
sum over the synthetic dataset is the bucket total 4. -/
theorem c5_proportional_allocation_witness :
    (allocRow [exQ1, exQ2] exMs exQ1 "W").estimated_credits =
      some ((exQ1.total_elapsed_time : Rat) /
        (totalMs [exQ1, exQ2] (hourOf exQ1.start_time) "W" : Rat) * 4) ∧
    (((allocRows [exQ1, exQ2] exMs).filter
        (fun r => decide (hourOf r.start_time = 2) && decide (r.warehouse_name = "W"))).map
      (fun r => r.estimated_credits.getD 0)).sum = 4 :=
  ⟨c5_proportional_allocation.1 [exQ1, exQ2] exMs exQ1 "W" 4 (by decide)
      (by norm_num [whCredits, exMs, exQ1, qr0, hourOf]),
    c5_proportional_allocation.2.2 [exQ1, exQ2] exMs 2 "W" 4
      (by norm_num [whCredits, exMs, hourOf]) (by decide)⟩

/-- C6: when a (warehouse, hour) group's elapsed total is zero, `NULLIF`
suppresses the division and the row's `ESTIMATED_CREDITS` is `NULL` (`none`).
The embedding is a total function into `Option Rat`, so no exception, `NaN`,
or infinity can be produced. -/
theorem c6_zero_total_undefined (qs : List QueryRow) (ms : List MeteringRow)
    (r : CostRow) (hr : r ∈ allocRows qs ms)
    (ht : totalMs qs (hourOf r.start_time) r.warehouse_name = 0) :
    r.estimated_credits = none := by
  rw [allocRows] at hr
  obtain ⟨q, hq, hmap⟩ := List.mem_filterMap.mp hr
  cases hwn : q.warehouse_name with
  | none =>
    rw [hwn] at hmap
    simp at hmap
  | some w =>
    rw [hwn] at hmap
    simp only [Option.map_some', Option.some.injEq] at hmap
    subst hmap
    simp only [allocRow] at ht ⊢
    cases hwc : whCredits ms (hourOf q.start_time) w <;> simp [hwc, ht]

def zQ : QueryRow :=
  { qr0 with
    query_id := "z"
    warehouse_name := some "W"
    start_time := 0
    total_elapsed_time := 0 }

/-- Witness for C6: a single zero-elapsed query in a bucket with credits still
recorded gets an undefined allocation. -/
theorem c6_zero_total_undefined_witness :
    (allocRow [zQ] [⟨0, "W", 4⟩] zQ "W").estimated_credits = none :=
  c6_zero_total_undefined [zQ] [⟨0, "W", 4⟩] (allocRow [zQ] [⟨0, "W", 4⟩] zQ "W")
    (List.mem_singleton.mpr rfl) (by decide)

theorem estDescNullsFirst_trans : ∀ a b c : Option Rat,
    estDescNullsFirst a b = true → estDescNullsFirst b c = true →
    estDescNullsFirst a c = true := by
  intro a b c hab hbc
  cases a <;> cases b <;> cases c <;> simp_all [estDescNullsFirst]
  linarith

theorem estDescNullsFirst_total : ∀ a b : Option Rat,
    (estDescNullsFirst a b || estDescNullsFirst b a) = true := by
  intro a b
  cases a <;> cases b <;> simp [estDescNullsFirst]
  exact le_total _ _

/-- C7 (amended): the cost view returns at most 50 rows, sorted by
`ESTIMATED_CREDITS` descending under Snowflake's `NULL`-highest ordering —
rows with an undefined allocation sort *first*, not last. -/
theorem c7_cost_view_order_amended (qs : List QueryRow) (ms : List MeteringRow) :
    (cost_rows qs ms).length ≤ 50 ∧
    List.Pairwise
      (fun a b => estDescNullsFirst a.estimated_credits b.estimated_credits = true)
      (cost_rows qs ms) := by
  constructor
  · exact List.length_take_le 50 _
  · apply List.Pairwise.sublist (List.take_sublist _ _)
    exact @List.sorted_mergeSort CostRow
      (fun a b => estDescNullsFirst a.estimated_credits b.estimated_credits)
      (fun a b c hab hbc => estDescNullsFirst_trans _ _ _ hab hbc)
      (fun a b => estDescNullsFirst_total _ _) (allocRows qs ms)

def cexQA : QueryRow :=
  { qr0 with
    query_id := "a"
    warehouse_name := some "A"
    start_time := 0
    total_elapsed_time := 0 }

def cexQB : QueryRow :=
  { qr0 with
    query_id := "b"
    warehouse_name := some "B"
    start_time := 0
    total_elapsed_time := 100 }

def cexMs : List MeteringRow := [⟨0, "B", 2⟩]

def cexRowA : CostRow := allocRow [cexQA, cexQB] cexMs cexQA "A"

def cexRowB : CostRow := allocRow [cexQA, cexQB] cexMs cexQB "B"

/-- The ordering asserted by the claim: defined allocations descending with
undefined (`NULL`) allocations placed last. -/
def estDescNullsLast (a b : Option Rat) : Bool :=
  match a, b with
  | some x, some y => decide (y ≤ x)
  | some _, none => true
  | none, none => true
  | none, some _ => false

/-- C7 counterexample: with one undefined-allocation row and one defined row,
`ORDER BY ESTIMATED_CREDITS DESC` (Snowflake: `NULL` is highest, so it sorts
first in a descending sort) returns the undefined row *first* — the output
violates the claimed nulls-last descending order. -/
theorem c7_counterexample :
    ((cost_rows [cexQA, cexQB] cexMs).map (fun r => r.estimated_credits) =
      [none, some 2]) ∧
    ¬ List.Pairwise (fun a b => estDescNullsLast a b = true)
        ((cost_rows [cexQA, cexQB] cexMs).map (fun r => r.estimated_credits)) := by
  have hrows : allocRows [cexQA, cexQB] cexMs = [cexRowA, cexRowB] := rfl
  have hcmp : (fun a b : CostRow =>
      estDescNullsFirst a.estimated_credits b.estimated_credits) cexRowA cexRowB = true := rfl
  have h1 : (cost_rows [cexQA, cexQB] cexMs).map (fun r => r.estimated_credits) =
      [none, some 2] := by
    rw [cost_rows, hrows, mergeSort_pair, if_pos hcmp,
      List.take_of_length_le (by norm_num)]
    have hBA : ¬ ("B" : String) = "A" := by decide
    have hAB : ¬ ("A" : String) = "B" := by decide
    norm_num [cexRowA, cexRowB, allocRow, whCredits, totalMs, costQ, cexQA,
      cexQB, cexMs, qr0, hourOf, hBA, hAB]
  refine ⟨h1, ?_⟩
  rw [h1]
  intro h
  have h2 := List.rel_of_pairwise_cons h (List.mem_singleton_self (some 2))
  simpa [estDescNullsLast] using h2

/-! ## Live running queries

Embedding of `run_show_queries` (app.py lines 76–97) and the Currently
Running section (lines 296–306).  The warehouse connection is an external
collaborator, so the outcome of the privileged `SHOW QUERIES` request enters
as a parameter: `Except.ok` for a fetched result set, `Except.error` for a
provider exception carrying whether it is a `ProgrammingError`. -/

structure SfError where
  isProgrammingError : Bool
  msg : String
deriving DecidableEq

structure ShowRow where
  query_id : String
  user_name : String
  execution_status : String
deriving DecidableEq

/-- Warning text of app.py lines 88–92. -/
def privUnavailableWarning : String :=
  "Live running queries are unavailable. Ensure your role has MONITOR privilege and that SHOW QUERIES is supported in your account."

/-- `run_show_queries`: on success the fetched rows pass through with no
warning; a `ProgrammingError` is caught and becomes an empty result plus the
warning and the provider message; every other exception propagates. -/
def run_show_queries (showResult : Except SfError (List ShowRow)) :
    Except SfError (List ShowRow × List String) :=
  match showResult with
  | .ok df => .ok (df, [])
  | .error e =>
    if e.isProgrammingError then
      .ok ([], [privUnavailableWarning, "Snowflake error: " ++ e.msg])
    else .error e

/-- Observable outcome of the Currently Running section: `unavailable` is the
branch that issues no query at all, `shown rows usedFallback` a rendered
table, `raised e` an exception escaping the section. -/
inductive RunningOutcome where
  | unavailable : RunningOutcome
  | shown : List ShowRow → Bool → RunningOutcome
  | raised : SfError → RunningOutcome
deriving DecidableEq

/-- The Currently Running section (lines 296–306): the privileged path is
attempted only when exactly one warehouse — and not the `ALL` sentinel — is
selected; its result is filtered to `RUNNING` rows; if nothing is left the
`INFORMATION_SCHEMA` fallback result is shown instead; with any other
selection the section reports unavailability without issuing a query. -/
def running_section (warehouses : List String)
    (showResult : Except SfError (List ShowRow))
    (fallbackRows : List ShowRow) : RunningOutcome :=
  if warehouses ≠ [] ∧ "ALL" ∉ warehouses ∧ warehouses.length = 1 then
    match run_show_queries showResult with
    | .error e => .raised e
    | .ok (df, _) =>
      let running := df.filter (fun r => r.execution_status == "RUNNING")
      if running.isEmpty then .shown fallbackRows true
      else .shown running false
  else .unavailable

theorem running_section_pos (w : List String) (res : Except SfError (List ShowRow))
    (fb : List ShowRow) (hc : w ≠ [] ∧ "ALL" ∉ w ∧ w.length = 1) :
    running_section w res fb =
      match run_show_queries res with
      | .error e => .raised e
      | .ok (df, _) =>
        if (df.filter (fun r => r.execution_status == "RUNNING")).isEmpty
        then .shown fb true
        else .shown (df.filter (fun r => r.execution_status == "RUNNING")) false := by
  rw [running_section, if_pos hc]

/-! ## Claim C8 -/

/-- C8 counterexample: with exactly one concrete warehouse selected, a
non-`ProgrammingError` failure of the privileged path propagates out of the
section — neither the fallback table nor the unavailability message is
produced — refuting "falls back silently whenever the privileged path
errors". -/
theorem c8_counterexample :
    running_section ["WH1"] (Except.error ⟨false, "network is unreachable"⟩) [] =
      RunningOutcome.raised ⟨false, "network is unreachable"⟩ ∧
    RunningOutcome.raised (⟨false, "network is unreachable"⟩ : SfError) ≠
      RunningOutcome.shown [] true ∧
    RunningOutcome.raised (⟨false, "network is unreachable"⟩ : SfError) ≠
      RunningOutcome.unavailable := by
  refine ⟨by decide, by decide, by decide⟩

/-- C8 (amended): the privileged path is attempted iff exactly one concrete
warehouse (not `ALL`, not several) is selected — otherwise the section
reports unavailability and issues no query; under that condition a
`ProgrammingError` of the privileged path or an absence of `RUNNING` rows
silently switches the view to the time-windowed fallback result, while other
exception types propagate. -/
theorem c8_running_view_amended (w : List String)
    (res : Except SfError (List ShowRow)) (fb : List ShowRow) :
    (running_section w res fb = RunningOutcome.unavailable ↔
      ¬(w.length = 1 ∧ "ALL" ∉ w)) ∧
    (∀ e : SfError, w.length = 1 → "ALL" ∉ w → res = .error e →
      e.isProgrammingError = true →
      running_section w res fb = RunningOutcome.shown fb true) ∧
    (∀ rows : List ShowRow, w.length = 1 → "ALL" ∉ w → res = .ok rows →
      rows.filter (fun r => r.execution_status == "RUNNING") = [] →
      running_section w res fb = RunningOutcome.shown fb true) ∧
    (∀ rows : List ShowRow, w.length = 1 → "ALL" ∉ w → res = .ok rows →
      rows.filter (fun r => r.execution_status == "RUNNING") ≠ [] →
      running_section w res fb =
        RunningOutcome.shown (rows.filter (fun r => r.execution_status == "RUNNING"))
          false) := by
  have hne : w.length = 1 → w ≠ [] := by
    intro h1 hnil
    rw [hnil] at h1
    simp at h1
  refine ⟨?_, ?_, ?_, ?_⟩
  · by_cases hcond : w.length = 1 ∧ "ALL" ∉ w
    · have hc : w ≠ [] ∧ "ALL" ∉ w ∧ w.length = 1 :=
        ⟨hne hcond.1, hcond.2, hcond.1⟩
      rw [running_section_pos w res fb hc]
      constructor
      · intro hX
        exfalso
        cases hres : run_show_queries res with
        | error e =>
          rw [hres] at hX
          simp at hX
        | ok p =>
          obtain ⟨df, warns⟩ := p
          rw [hres] at hX
          dsimp only at hX
          split at hX <;> simp_all
      · intro hn
        exact absurd hcond hn
    · have hc' : ¬(w ≠ [] ∧ "ALL" ∉ w ∧ w.length = 1) := by
        intro h
        exact hcond ⟨h.2.2, h.2.1⟩
      rw [running_section, if_neg hc']
      simp [hcond]
  · intro e h1 h2 hres hprog
    rw [running_section_pos w res fb ⟨hne h1, h2, h1⟩, hres]
    simp [run_show_queries, hprog]
  · intro rows h1 h2 hres hemp
    rw [running_section_pos w res fb ⟨hne h1, h2, h1⟩, hres]
    simp [run_show_queries, hemp]
  · intro rows h1 h2 hres hnemp
    rw [running_section_pos w res fb ⟨hne h1, h2, h1⟩, hres]
    simp [run_show_queries, hnemp]

/-- Witness for C8 (amended): a privilege error falls back, a two-warehouse
selection and the `ALL` sentinel report unavailability. -/
theorem c8_running_view_amended_witness :
    running_section ["WH1"] (Except.error ⟨true, "no MONITOR privilege"⟩) [] =
      RunningOutcome.shown [] true ∧
    running_section ["A", "B"] (Except.ok []) [] = RunningOutcome.unavailable ∧
    running_section ["ALL"] (Except.ok []) [] = RunningOutcome.unavailable :=
  ⟨(c8_running_view_amended ["WH1"] (Except.error ⟨true, "no MONITOR privilege"⟩)
      []).2.1 ⟨true, "no MONITOR privilege"⟩ (by decide) (by decide) rfl rfl,
    ((c8_running_view_amended ["A", "B"] (Except.ok []) []).1).mpr (by decide),
    ((c8_running_view_amended ["ALL"] (Except.ok []) []).1).mpr (by decide)⟩

/-! ## Claim C9 -/

/-- C9 counterexample: a non-`ProgrammingError` provider failure (for example
a network error) propagates out of `run_show_queries` — the function raises to
its caller — refuting "on any failure it does not raise". -/
theorem c9_counterexample :
    run_show_queries (Except.error ⟨false, "connection reset"⟩) =
      Except.error ⟨false, "connection reset"⟩ ∧
    (run_show_queries (Except.error ⟨false, "connection reset"⟩)).isOk = false := by
  refine ⟨rfl, rfl⟩

/-- C9 (amended): on success the rows pass through with no warning; on a
`ProgrammingError` (insufficient privilege, unsupported feature) the function
does not raise — it returns an empty result and surfaces the warning together
with the provider error message; any other exception type propagates to the
caller. -/
theorem c9_show_live_amended (res : Except SfError (List ShowRow)) :
    (∀ rows : List ShowRow, res = .ok rows → run_show_queries res = .ok (rows, [])) ∧
    (∀ e : SfError, res = .error e → e.isProgrammingError = true →
      run_show_queries res =
        .ok ([], [privUnavailableWarning, "Snowflake error: " ++ e.msg])) ∧
    (∀ e : SfError, res = .error e → e.isProgrammingError = false →
      run_show_queries res = .error e) := by
  refine ⟨?_, ?_, ?_⟩
  · intro rows hres
    rw [hres]
    rfl
  · intro e hres hp
    rw [hres]
    simp [run_show_queries, hp]
  · intro e hres hp
    rw [hres]
    simp [run_show_queries, hp]

/-- Witness for C9 (amended): an insufficient-privilege `ProgrammingError`
yields the empty result and both operator-visible messages. -/
theorem c9_show_live_amended_witness :
    run_show_queries (Except.error ⟨true, "Insufficient privileges"⟩) =
      Except.ok ([], [privUnavailableWarning,
        "Snowflake error: Insufficient privileges"]) :=
  (c9_show_live_amended (Except.error ⟨true, "Insufficient privileges"⟩)).2.1
    ⟨true, "Insufficient privileges"⟩ rfl rfl

end SfMonitor
